import Mathlib

/-!
Verification of the block-explorer backend (Rust sources under src/).

The development shallowly embeds the ingestion/indexing pipeline
(src/parser.rs, src/db.rs) and the query layer (src/main.rs,
src/handlers.rs, src/db.rs) over a pure relational-store model.

External collaborators are treated as parameters of the embedding:
- the bitcoin crate's hashing/consensus serialization results are carried
  as fields of the decoded block/transaction values (`DecodedBlock`);
- serde_json's encoders/decoders for the stored inputs/outputs text
  columns are function parameters (`Env.encIn`/`Env.encOut`, `ParseEnv`);
- sqlite write failures (rusqlite `Err` from `conn.execute`) are modelled
  by a boolean oracle `Env.writeOk` indexed by a running write counter.
-/

set_option maxHeartbeats 1000000

/-- Simplified transaction input, mirroring `TxInSimplified` in
src/src/models.rs (script bytes and witness elements hex-encoded). -/
structure TxInSimplified where
  prev_txid : String
  vout : Nat
  script_sig : String
  sequence : Nat
  witness : List String
deriving DecidableEq

/-- Simplified transaction output, mirroring `TxOutSimplified` in
src/src/models.rs. -/
structure TxOutSimplified where
  value : Nat
  script_pubkey : String
deriving DecidableEq

/-- A raw transaction input as produced by the external consensus decoder
(`bitcoin::TxIn`): previous outpoint, script bytes, sequence, witness. -/
structure TxIn where
  prev_txid : String
  vout : Nat
  script_sig : List Nat
  sequence : Nat
  witness : List (List Nat)
deriving DecidableEq

/-- A raw transaction output as produced by the external consensus decoder
(`bitcoin::TxOut`). -/
structure TxOut where
  value : Nat
  script_pubkey : List Nat
deriving DecidableEq

/-- A decoded transaction. `txid` carries the result of the external
`compute_txid()`, `raw` the external consensus serialization. -/
structure DecodedTx where
  txid : String
  input : List TxIn
  output : List TxOut
  raw : List Nat
deriving DecidableEq

/-- A decoded block as returned by the external consensus decoder
(`bitcoin::Block`). `hash`, `headerBytes` and `rawBytes` carry the results
of the external `block_hash()` and `consensus::encode::serialize` calls. -/
structure DecodedBlock where
  hash : String
  version : Int
  prev_blockhash : String
  merkle_root : String
  time : Nat
  bits : Nat
  nonce : Nat
  headerBytes : List Nat
  rawBytes : List Nat
  txdata : List DecodedTx
deriving DecidableEq

/-- A row of the `blocks` table created by `init_db` in src/src/db.rs. -/
structure BlockRow where
  hash : String
  height : Nat
  version : Int
  prev_block : String
  merkle_root : String
  timestamp : Nat
  bits : Nat
  nonce : Nat
  size : Nat
  header : List Nat
  raw_data : List Nat
deriving DecidableEq

/-- A row of the `transactions` table created by `init_db` in
src/src/db.rs. The `inputs`/`outputs` columns hold JSON text. -/
structure TxRow where
  txid : String
  block_hash : Option String
  inputs : String
  outputs : String
  raw_data : List Nat
deriving DecidableEq

/-- The relational store: the two tables created by `init_db`
(src/src/db.rs, lines 6-36). Row order in a table is immaterial to the
queries, which sort explicitly. -/
structure Store where
  blocks : List BlockRow
  transactions : List TxRow
deriving DecidableEq

/-- The store right after `init_db` on a fresh database file. -/
def emptyStore : Store := ⟨[], []⟩

/-- SQLite `INSERT OR REPLACE` against a table keyed by a text primary
key: rows conflicting on the key are removed and the new row stored. -/
def upsertBy (key : α → String) (l : List α) (x : α) : List α :=
  l.filter (fun y => key y ≠ key x) ++ [x]

/-- Iterated `INSERT OR REPLACE`. -/
def upsertsBy (key : α → String) (l : List α) (xs : List α) : List α :=
  xs.foldl (upsertBy key) l

/-- Models `INSERT OR REPLACE INTO blocks ...` (primary key `hash`). -/
def Store.putBlock (st : Store) (r : BlockRow) : Store :=
  { st with blocks := upsertBy BlockRow.hash st.blocks r }

/-- Models `INSERT OR REPLACE INTO transactions ...` (primary key `txid`). -/
def Store.putTx (st : Store) (r : TxRow) : Store :=
  { st with transactions := upsertBy TxRow.txid st.transactions r }

/-- One hex digit, lower case, as produced by `hex::encode`. -/
def hexChar (n : Nat) : Char :=
  if n < 10 then Char.ofNat (48 + n) else Char.ofNat (87 + n)

/-- One byte as two hex digits. -/
def hexByte (b : Nat) : List Char := [hexChar (b / 16 % 16), hexChar (b % 16)]

/-- Models `hex::encode` over a byte sequence. -/
def hexEncode (bs : List Nat) : String :=
  String.mk (bs.flatMap hexByte)

/-- The input simplification performed inline by `insert_tx`
(src/src/db.rs, lines 77-87). -/
def simplifyInput (i : TxIn) : TxInSimplified :=
  { prev_txid := i.prev_txid
    vout := i.vout
    script_sig := hexEncode i.script_sig
    sequence := i.sequence
    witness := i.witness.map hexEncode }

/-- The output simplification performed inline by `insert_tx`
(src/src/db.rs, lines 90-95). -/
def simplifyOutput (o : TxOut) : TxOutSimplified :=
  { value := o.value, script_pubkey := hexEncode o.script_pubkey }

/-- Environment of external effects for the write path: the serde_json
encoders used for the `inputs`/`outputs` columns, and the storage-failure
oracle deciding whether the n-th `conn.execute` write succeeds. -/
structure Env where
  encIn : List TxInSimplified → String
  encOut : List TxOutSimplified → String
  writeOk : Nat → Bool

/-- An environment in which every storage write succeeds. -/
def okEnv (ei : List TxInSimplified → String)
    (eo : List TxOutSimplified → String) : Env :=
  { encIn := ei, encOut := eo, writeOk := fun _ => true }

/-- The transaction row built by `insert_tx` (src/src/db.rs, lines
73-105): simplified inputs/outputs JSON-encoded, owning block hash set. -/
def txRowOf (env : Env) (tx : DecodedTx) (blockHash : String) : TxRow :=
  { txid := tx.txid
    block_hash := some blockHash
    inputs := env.encIn (tx.input.map simplifyInput)
    outputs := env.encOut (tx.output.map simplifyOutput)
    raw_data := tx.raw }

/-- Models `insert_tx` (src/src/db.rs, lines 73-107): one `INSERT OR REPLACE`
into `transactions`. Returns the store, the advanced write counter, and
whether the write succeeded. -/
def insert_tx (env : Env) (w : Nat) (st : Store) (tx : DecodedTx)
    (blockHash : String) : Store × Nat × Bool :=
  if env.writeOk w then (st.putTx (txRowOf env tx blockHash), w + 1, true)
  else (st, w + 1, false)

/-- The block row built by `insert_block` (src/src/db.rs, lines 41-63):
header fields, serialized size, header bytes, raw bytes. -/
def blockRowOf (b : DecodedBlock) (height : Nat) : BlockRow :=
  { hash := b.hash
    height := height
    version := b.version
    prev_block := b.prev_blockhash
    merkle_root := b.merkle_root
    timestamp := b.time
    bits := b.bits
    nonce := b.nonce
    size := b.rawBytes.length
    header := b.headerBytes
    raw_data := b.rawBytes }

/-- The `for tx in &block.txdata { insert_tx(...)? }` loop of
`insert_block` (src/src/db.rs, lines 65-67): stops at the first failing
write (the `?` operator returns early). -/
def insertTxList (env : Env) : Store → Nat → List DecodedTx → String →
    Store × Nat × Bool
  | st, w, [], _ => (st, w, true)
  | st, w, t :: rest, bh =>
    match insert_tx env w st t bh with
    | (st1, w1, true) => insertTxList env st1 w1 rest bh
    | (st1, w1, false) => (st1, w1, false)

/-- Models `insert_block` (src/src/db.rs, lines 41-69): writes the block row,
then each transaction row in block order, with no enclosing SQL
transaction; any failing write returns early with `Err`. -/
def insert_block (env : Env) (st : Store) (w : Nat) (b : DecodedBlock)
    (height : Nat) : Store × Nat × Bool :=
  if env.writeOk w then
    insertTxList env (st.putBlock (blockRowOf b height)) (w + 1) b.txdata b.hash
  else (st, w + 1, false)

/-- State threaded through `index_blocks` (src/src/parser.rs): the store,
the run-local height counter, the write counter feeding the failure
oracle, and the log of `Indexed block at height ...` success messages
as (block hash, assigned height) pairs. -/
structure RunState where
  store : Store
  height : Nat
  wctr : Nat
  log : List (String × Nat)
deriving DecidableEq

/-- The `while let Ok(block) = parse_block(&mut reader)` loop of
`index_blocks` (src/src/parser.rs, lines 56-67) over one container file.
Each element is the outcome of one `parse_block` call: `some b` for a
successfully framed and consensus-decoded block, `none` for any
`Err` (bad magic, short read, or consensus decode failure). The loop
exits at the first `Err`; on a successful insert the height counter
advances by one and the success is logged, on a failed insert the
height is left unchanged and the loop continues. -/
def processFile (env : Env) : RunState → List (Option DecodedBlock) → RunState
  | rs, [] => rs
  | rs, none :: _ => rs
  | rs, some b :: rest =>
    match insert_block env rs.store rs.wctr b rs.height with
    | (st1, w1, true) =>
      processFile env { store := st1, height := rs.height + 1, wctr := w1,
                        log := rs.log ++ [(b.hash, rs.height)] } rest
    | (st1, w1, false) =>
      processFile env { store := st1, height := rs.height, wctr := w1,
                        log := rs.log } rest

/-- One directory entry seen by `index_blocks`: its file name and the
sequence of `parse_block` outcomes its byte stream yields. -/
structure BlkFile where
  name : String
  payloads : List (Option DecodedBlock)

/-- The file-name filter of `index_blocks` (src/src/parser.rs, line 50):
`filename_str.starts_with("blk") && filename_str.ends_with(".dat")`,
expressed over the character sequences of the strings. -/
def isBlkFile (name : String) : Bool :=
  List.isPrefixOf "blk".data name.data && List.isSuffixOf ".dat".data name.data

/-- The outer directory loop of `index_blocks` (src/src/parser.rs,
lines 46-69): files not matching the naming convention are skipped,
matching files are scanned with the inner loop, and the run state
(height counter included) carries over from file to file. -/
def indexFilesFrom (env : Env) : RunState → List BlkFile → RunState
  | rs, [] => rs
  | rs, f :: fs =>
    indexFilesFrom env
      (if isBlkFile f.name then processFile env rs f.payloads else rs) fs

/-- Models `index_blocks` (src/src/parser.rs, lines 42-73): the height counter
starts at 0 for the run. -/
def index_blocks (env : Env) (files : List BlkFile) (st : Store) : RunState :=
  indexFilesFrom env { store := st, height := 0, wctr := 0, log := [] } files

/-! ### Query layer -/

/-- Models `ORDER BY height DESC` as a relation on block rows. Ties (the schema
does not declare `height` UNIQUE) are broken arbitrarily by SQLite; the
model uses a deterministic insertion sort. -/
def heightDescRel (a b : BlockRow) : Prop := b.height ≤ a.height

/-- Models `ORDER BY height ASC` as a relation on block rows. -/
def heightAscRel (a b : BlockRow) : Prop := a.height ≤ b.height

instance : DecidableRel heightDescRel := fun a b => by
  unfold heightDescRel; infer_instance

instance : DecidableRel heightAscRel := fun a b => by
  unfold heightAscRel; infer_instance

instance : IsTotal BlockRow heightDescRel :=
  ⟨fun a b => le_total b.height a.height⟩

instance : IsTrans BlockRow heightDescRel :=
  ⟨fun _ _ _ hab hbc => le_trans hbc hab⟩

instance : IsTotal BlockRow heightAscRel :=
  ⟨fun a b => le_total a.height b.height⟩

instance : IsTrans BlockRow heightAscRel :=
  ⟨fun _ _ _ hab hbc => le_trans hab hbc⟩

/-- Rows of `blocks` ordered by `height DESC`. -/
def sortDesc (l : List BlockRow) : List BlockRow :=
  List.insertionSort heightDescRel l

/-- Rows of `blocks` ordered by `height ASC`. -/
def sortAsc (l : List BlockRow) : List BlockRow :=
  List.insertionSort heightAscRel l

/-- Models `SELECT COUNT(*) FROM transactions WHERE block_hash = ?1`. -/
def txCountFor (st : Store) (h : String) : Nat :=
  (st.transactions.filter (fun t => t.block_hash = some h)).length

/-- Models `BlockSummary` (src/src/main.rs, lines 24-30). -/
structure BlockSummary where
  hash : String
  height : Nat
  timestamp : Nat
  tx_count : Nat
deriving DecidableEq

/-- The summary row built by the listing queries: hash, height,
timestamp plus the per-block transaction count subquery. -/
def summaryOf (st : Store) (r : BlockRow) : BlockSummary :=
  ⟨r.hash, r.height, r.timestamp, txCountFor st r.hash⟩

/-- Models `SELECT ... FROM blocks ORDER BY height DESC LIMIT ?1` with the
per-row transaction-count subquery: `query_latest_blocks`, identical in
src/src/main.rs (lines 303-325) and src/src/db.rs (lines 207-236). -/
def query_latest_blocks (st : Store) (limit : Nat) : List BlockSummary :=
  ((sortDesc st.blocks).take limit).map (summaryOf st)

/-- Models `SELECT COUNT(*) FROM blocks`: `query_block_count`
(src/src/main.rs, lines 360-362; src/src/db.rs, lines 238-240). -/
def query_block_count (st : Store) : Nat := st.blocks.length

/-- Models `SELECT COUNT(*) FROM transactions`: `query_transaction_count`
(src/src/main.rs, lines 364-366; src/src/db.rs, lines 242-244). -/
def query_transaction_count (st : Store) : Nat := st.transactions.length

/-- Models `SELECT txid, ... FROM transactions WHERE txid = ?` row lookup
(`txid` is the primary key, so at most one row matches). -/
def findTxRow (st : Store) (txid : String) : Option TxRow :=
  st.transactions.find? (fun t => t.txid = txid)

/-- Models `SELECT height FROM blocks WHERE hash = ?1`, `.ok()`-converted. -/
def heightOfHash (st : Store) (h : String) : Option Nat :=
  (st.blocks.find? (fun b => b.hash = h)).map BlockRow.height

/-- Models `TxResponse` (src/src/models.rs, lines 18-31). -/
structure TxResponse where
  txid : String
  version : Nat
  lock_time : Nat
  block_hash : Option String
  block_height : Option Nat
  confirmations : Option Nat
  inputs : List TxInSimplified
  outputs : List TxOutSimplified
  size : Nat
  vsize : Nat
  weight : Nat
deriving DecidableEq

/-- The external serde_json decoders applied to the stored
`inputs`/`outputs` text columns at query time. -/
structure ParseEnv where
  pIn : String → Option (List TxInSimplified)
  pOut : String → Option (List TxOutSimplified)

/-- Models `LatestBlocksResponse` (src/src/main.rs, lines 18-22). -/
structure LatestBlocksResponse where
  blocks : List BlockSummary
  total_count : Nat
deriving DecidableEq

/-- The JSON pagination object built by `get_all_blocks`. -/
structure PaginatedResponse where
  blocks : List BlockSummary
  current_page : Nat
  per_page : Nat
  total_blocks : Nat
  total_pages : Nat
  has_next : Bool
  has_prev : Bool
deriving DecidableEq

/-- Models `(total as f64 / limit as f64).ceil() as usize` (src/src/main.rs,
line 143; src/src/handlers.rs, line 151). For `1 ≤ limit ≤ 100` and
`total < 2^32` (COUNT(*) is read back as u32) the f64 division and ceil
are exact, giving the arithmetic ceiling `(total + limit - 1) / limit`:
the true quotient is at least `1/limit ≥ 1/100` away from any other
integer, far beyond the half-ulp rounding error. At `limit = 0` the f64
quotient is `inf` for `total > 0` (the `as usize` cast saturates to
`usize::MAX`) and `NaN` for `total = 0` (cast to 0). -/
def totalPagesOf (total limit : Nat) : Nat :=
  if limit = 0 then (if total = 0 then 0 else 2 ^ 64 - 1)
  else (total + limit - 1) / limit

namespace Srv

/-! Handlers and query functions of the served binary, src/src/main.rs.
Its locally defined query functions shadow the glob-imported ones from
src/src/db.rs. -/

/-- Models `query_all_blocks` (src/src/main.rs, lines 327-349):
`ORDER BY height ASC LIMIT ? OFFSET ?`. -/
def query_all_blocks (st : Store) (limit offset : Nat) : List BlockSummary :=
  (((sortAsc st.blocks).drop offset).take limit).map (summaryOf st)

/-- Models `query_tx` (src/src/main.rs, lines 264-301): resolves the owning
block height at read time; size and vsize are the stored raw byte
length and weight is 4 times it; unparseable inputs/outputs text
decodes to the empty list via `unwrap_or_default()`. -/
def query_tx (pe : ParseEnv) (st : Store) (txid : String) :
    Option TxResponse :=
  (findTxRow st txid).map fun row =>
    { txid := row.txid
      version := 1
      lock_time := 0
      block_hash := row.block_hash
      block_height := row.block_hash.bind (heightOfHash st)
      confirmations := none
      inputs := (pe.pIn row.inputs).getD []
      outputs := (pe.pOut row.outputs).getD []
      size := row.raw_data.length
      vsize := row.raw_data.length
      weight := row.raw_data.length * 4 }

/-- Models `get_latest_blocks` (src/src/main.rs, lines 95-119): the limit query
parameter defaults to 10 and is capped at 100; `total_count` is
`query_block_count`, the total number of blocks in the store. -/
def get_latest_blocks (st : Store) (limitParam : Option Nat) :
    LatestBlocksResponse :=
  let limit := min (limitParam.getD 10) 100
  { blocks := query_latest_blocks st limit
    total_count := query_block_count st }

/-- Models `get_all_blocks` (src/src/main.rs, lines 122-162): page defaults to
1 (floored at 1), limit defaults to 20 (capped at 100), offset is
`(page - 1) * limit`; pagination metadata as built there. -/
def get_all_blocks (st : Store) (pageParam limitParam : Option Nat) :
    PaginatedResponse :=
  let page := max (pageParam.getD 1) 1
  let limit := min (limitParam.getD 20) 100
  let offset := (page - 1) * limit
  let total := query_block_count st
  let total_pages := totalPagesOf total limit
  { blocks := query_all_blocks st limit offset
    current_page := page
    per_page := limit
    total_blocks := total
    total_pages := total_pages
    has_next := decide (page < total_pages)
    has_prev := decide (1 < page) }

end Srv

namespace Db

/-! The overlapping query functions of src/src/db.rs, reachable only
through the handlers in src/src/handlers.rs (which no route of the
served binary dispatches to). -/

/-- Models `query_all_blocks` (src/src/db.rs, lines 258-287):
`ORDER BY height DESC LIMIT ?1 OFFSET ?2`. -/
def query_all_blocks (st : Store) (limit offset : Nat) : List BlockSummary :=
  (((sortDesc st.blocks).drop offset).take limit).map (summaryOf st)

/-- Models `query_tx` (src/src/db.rs, lines 160-205): like the main.rs variant
but size, vsize and weight are placeholder zeros. -/
def query_tx (pe : ParseEnv) (st : Store) (txid : String) :
    Option TxResponse :=
  (findTxRow st txid).map fun row =>
    { txid := row.txid
      version := 1
      lock_time := 0
      block_hash := row.block_hash
      block_height := row.block_hash.bind (heightOfHash st)
      confirmations := none
      inputs := (pe.pIn row.inputs).getD []
      outputs := (pe.pOut row.outputs).getD []
      size := 0
      vsize := 0
      weight := 0 }

end Db

namespace Handlers

/-- Models `get_latest_blocks` (src/src/handlers.rs, lines 70-92): the limit
query parameter defaults to 10 and is NOT capped; `total_count` is the
number of summaries returned. -/
def get_latest_blocks (st : Store) (limitParam : Option Nat) :
    LatestBlocksResponse :=
  let limit := limitParam.getD 10
  let blocks := query_latest_blocks st limit
  { blocks := blocks, total_count := blocks.length }

end Handlers

/-! ### Derived notions used by the theorems -/

/-- Descending-height order on listing summaries. -/
def descS (a b : BlockSummary) : Prop := b.height ≤ a.height

/-- Ascending-height order on listing summaries. -/
def ascS (a b : BlockSummary) : Prop := a.height ≤ b.height

/-- A transaction row's owning-block foreign key (the `block_hash`
column) references an existing row of `blocks`. -/
def txRefOk (bs : List BlockRow) (t : TxRow) : Bool :=
  match t.block_hash with
  | none => true
  | some bh => bs.any (fun b => b.hash = bh)

/-- Referential integrity of the store: the declared
`FOREIGN KEY (block_hash) REFERENCES blocks(hash)` of `init_db`. -/
def storeInv (st : Store) : Prop :=
  ∀ t ∈ st.transactions, txRefOk st.blocks t = true

/-- Number of blocks a failure-free scan stores from one file's
payload-outcome stream (the stream is consumed up to the first
parse failure). -/
def successCount : List (Option DecodedBlock) → Nat
  | [] => 0
  | none :: _ => 0
  | some _ :: rest => successCount rest + 1

/-- Block rows written by a failure-free scan of one file, heights
assigned from `h` on. -/
def storedBlocksOf : Nat → List (Option DecodedBlock) → List BlockRow
  | _, [] => []
  | _, none :: _ => []
  | h, some b :: rest => blockRowOf b h :: storedBlocksOf (h + 1) rest

/-- Transaction rows written by a failure-free scan of one file. -/
def storedTxsOf (env : Env) : List (Option DecodedBlock) → List TxRow
  | [] => []
  | none :: _ => []
  | some b :: rest =>
    b.txdata.map (fun t => txRowOf env t b.hash) ++ storedTxsOf env rest

/-- Block rows written by a failure-free run over a directory. -/
def storedBlocksFiles : Nat → List BlkFile → List BlockRow
  | _, [] => []
  | h, f :: fs =>
    if isBlkFile f.name then
      storedBlocksOf h f.payloads ++
        storedBlocksFiles (h + successCount f.payloads) fs
    else storedBlocksFiles h fs

/-- Transaction rows written by a failure-free run over a directory. -/
def storedTxsFiles (env : Env) : List BlkFile → List TxRow
  | [] => []
  | f :: fs =>
    (if isBlkFile f.name then storedTxsOf env f.payloads else []) ++
      storedTxsFiles env fs

/-- Height gained by a failure-free run over a directory. -/
def heightGainFiles : List BlkFile → Nat
  | [] => 0
  | f :: fs =>
    (if isBlkFile f.name then successCount f.payloads else 0) + heightGainFiles fs

/-- Number of rows of a table whose key is `k`. -/
def keyCount (key : α → String) (l : List α) (k : String) : Nat :=
  l.countP (fun y => key y = k)

/-! ### Concrete inputs used by counterexamples and witnesses -/

/-- A transaction with one byte of raw data. -/
def c1Tx : DecodedTx := ⟨"t1", [], [], [0]⟩

/-- A block containing one transaction. -/
def c1Block : DecodedBlock := ⟨"b1", 1, "p", "m", 5, 6, 7, [1], [1, 2], [c1Tx]⟩

/-- An environment whose first storage write succeeds and whose later
writes fail: the block row goes in, the transaction row does not. -/
def c1Env : Env := ⟨fun _ => "", fun _ => "", fun w => w == 0⟩

/-- The run state at the start of a run over an empty store. -/
def rs0 : RunState := ⟨emptyStore, 0, 0, []⟩

/-- A well-formed block that decodes fine. -/
def c2Block : DecodedBlock := ⟨"b2", 1, "p", "m", 5, 6, 7, [1], [1, 2], []⟩

/-- A container file whose first payload the decoder rejects and whose
second payload is a well-formed block. -/
def c2File : BlkFile := ⟨"blk00000.dat", [none, some c2Block]⟩

/-- An all-success environment with trivial JSON encoders. -/
def okEnv0 : Env := okEnv (fun _ => "") (fun _ => "")

/-- A block row at height 0. -/
def c5RowA : BlockRow := ⟨"a", 0, 0, "", "", 0, 0, 0, 0, [], []⟩

/-- A block row at height 1. -/
def c5RowB : BlockRow := ⟨"b", 1, 0, "", "", 0, 0, 0, 0, [], []⟩

/-- A store holding two blocks and no transactions. -/
def c5Store : Store := ⟨[c5RowA, c5RowB], []⟩

/-- A store holding two blocks, for the pagination witness. -/
def c6Store : Store := ⟨[⟨"a6", 0, 0, "", "", 0, 0, 0, 0, [], []⟩,
                        ⟨"b6", 1, 0, "", "", 0, 0, 0, 0, [], []⟩], []⟩

/-- A stored transaction row with two raw bytes. -/
def c8Row : TxRow := ⟨"t8", some "b8", "[]", "[]", [9, 9]⟩

/-- A store holding that one transaction. -/
def c8Store : Store := ⟨[], [c8Row]⟩

/-- Parse environment that fails on every stored text. -/
def pe0 : ParseEnv := ⟨fun _ => none, fun _ => none⟩

/-- A stored transaction row whose inputs/outputs text is not valid
JSON. -/
def c10Row : TxRow := ⟨"t10", some "b10", "not json", "not json", []⟩

/-- A store holding that one transaction. -/
def c10Store : Store := ⟨[], [c10Row]⟩

/-- A container file with one decodable block carrying one transaction. -/
def c9File : BlkFile :=
  ⟨"blk00001.dat", [some ⟨"b9", 1, "p", "m", 5, 6, 7, [1], [1, 2], [⟨"t9", [], [], [3]⟩]⟩]⟩

/-! ### Helper lemmas -/

theorem putTx_blocks (st : Store) (r : TxRow) : (st.putTx r).blocks = st.blocks :=
  rfl

theorem putBlock_transactions (st : Store) (r : BlockRow) :
    (st.putBlock r).transactions = st.transactions := rfl

theorem insertTxList_blocks (env : Env) :
    ∀ (txs : List DecodedTx) (st : Store) (w : Nat) (bh : String),
      ((insertTxList env st w txs bh).1).blocks = st.blocks := by
  intro txs
  induction txs with
  | nil => intro st w bh; rfl
  | cons t rest ih =>
    intro st w bh
    by_cases h : env.writeOk w
    · simp [insertTxList, insert_tx, h, ih, Store.putTx]
    · simp [insertTxList, insert_tx, h]

/-- C1 counterexample: with the block-row write succeeding and the
transaction-row write failing, `insert_block` reports failure yet leaves
the store changed — the block row (at the attempted height) is present
while its transaction row is not, so the pair was not written
atomically. -/
theorem c1_counterexample :
    (insert_block c1Env emptyStore 0 c1Block 0).2.2 = false ∧
    (insert_block c1Env emptyStore 0 c1Block 0).1 ≠ emptyStore ∧
    (insert_block c1Env emptyStore 0 c1Block 0).1.blocks = [blockRowOf c1Block 0] ∧
    (insert_block c1Env emptyStore 0 c1Block 0).1.transactions = [] := by
  decide

/-- C1 (amended): when a storage write fails partway through a block
(the block row or any of its transaction rows), the height counter does
not advance for that block and the engine proceeds to the next payload;
the writes already performed, however, remain in the store: in
particular, if the block-row write itself succeeded, the block row is
present in the store after the failure. -/
theorem c1_failed_block_write_behavior (env : Env) (rs : RunState)
    (b : DecodedBlock) (rest : List (Option DecodedBlock))
    (hfail : (insert_block env rs.store rs.wctr b rs.height).2.2 = false) :
    processFile env rs (some b :: rest) =
      processFile env
        { store := (insert_block env rs.store rs.wctr b rs.height).1
          height := rs.height
          wctr := (insert_block env rs.store rs.wctr b rs.height).2.1
          log := rs.log } rest ∧
    (env.writeOk rs.wctr = true →
      blockRowOf b rs.height ∈
        (insert_block env rs.store rs.wctr b rs.height).1.blocks) := by
  constructor
  · rcases hins : insert_block env rs.store rs.wctr b rs.height with ⟨st1, w1, ok⟩
    cases ok with
    | false => simp [processFile, hins]
    | true => rw [hins] at hfail; simp at hfail
  · intro hw
    simp only [insert_block, hw, if_true]
    rw [insertTxList_blocks]
    simp [Store.putBlock, upsertBy]

theorem c1_failed_block_write_behavior_witness :
    processFile c1Env rs0 [some c1Block] =
      processFile c1Env
        { store := (insert_block c1Env rs0.store rs0.wctr c1Block rs0.height).1
          height := rs0.height
          wctr := (insert_block c1Env rs0.store rs0.wctr c1Block rs0.height).2.1
          log := rs0.log } [] ∧
    (c1Env.writeOk rs0.wctr = true →
      blockRowOf c1Block rs0.height ∈
        (insert_block c1Env rs0.store rs0.wctr c1Block rs0.height).1.blocks) :=
  c1_failed_block_write_behavior c1Env rs0 c1Block [] (by decide)

/-- C2 counterexample: a container file whose first payload the decoder
rejects and whose second payload is a well-formed block. The claim says
the scan skips the bad payload and continues with the next payload of
the same file, which would index the good block; the code ends the scan
of the file at the failure, so nothing is indexed. -/
theorem c2_counterexample :
    (index_blocks okEnv0 [c2File] emptyStore).store = emptyStore ∧
    (index_blocks okEnv0 [c2File] emptyStore).log = [] := by
  decide

/-- C2 (amended): a payload that `parse_block` rejects ends the scan of
the current file — the remaining payloads of that file are not
processed and the state is left as it was — and the engine proceeds to
the next file; the run as a whole is not aborted. -/
theorem c2_decode_failure_ends_file (env : Env) (rs : RunState) (nm : String)
    (rest : List (Option DecodedBlock)) (fs : List BlkFile)
    (hnm : isBlkFile nm = true) :
    processFile env rs (none :: rest) = rs ∧
    indexFilesFrom env rs (⟨nm, none :: rest⟩ :: fs) = indexFilesFrom env rs fs := by
  refine ⟨rfl, ?_⟩
  simp [indexFilesFrom, hnm, processFile]

theorem c2_decode_failure_ends_file_witness :
    processFile okEnv0 rs0 [none, some c2Block] = rs0 ∧
    indexFilesFrom okEnv0 rs0 [⟨"blk00000.dat", [none, some c2Block]⟩] =
      indexFilesFrom okEnv0 rs0 [] :=
  c2_decode_failure_ends_file okEnv0 rs0 "blk00000.dat" [some c2Block] [] (by decide)

theorem sortDesc_sorted (l : List BlockRow) :
    List.Pairwise heightDescRel (sortDesc l) :=
  List.sorted_insertionSort heightDescRel l

theorem sortAsc_sorted (l : List BlockRow) :
    List.Pairwise heightAscRel (sortAsc l) :=
  List.sorted_insertionSort heightAscRel l

theorem query_latest_blocks_sorted (st : Store) (limit : Nat) :
    List.Pairwise descS (query_latest_blocks st limit) := by
  unfold query_latest_blocks
  refine List.Pairwise.map _ (fun a b h => h) ?_
  exact List.Pairwise.sublist (List.take_sublist _ _) (sortDesc_sorted st.blocks)

theorem query_latest_blocks_length_le (st : Store) (limit : Nat) :
    (query_latest_blocks st limit).length ≤ limit := by
  simp [query_latest_blocks]

theorem srv_query_all_blocks_sorted (st : Store) (limit offset : Nat) :
    List.Pairwise ascS (Srv.query_all_blocks st limit offset) := by
  unfold Srv.query_all_blocks
  refine List.Pairwise.map _ (fun a b h => h) ?_
  exact List.Pairwise.sublist
    ((List.take_sublist _ _).trans (List.drop_sublist _ _))
    (sortAsc_sorted st.blocks)

theorem srv_query_all_blocks_length_le (st : Store) (limit offset : Nat) :
    (Srv.query_all_blocks st limit offset).length ≤ limit := by
  simp [Srv.query_all_blocks]

/-- C5 counterexample: a store with two blocks, latest-N requested with
limit 1 through the served handler. One summary is returned, but the
count reported alongside (`total_count`) is the total number of blocks
in the store, 2 — not the count of items returned. -/
theorem c5_counterexample :
    (Srv.get_latest_blocks c5Store (some 1)).blocks.length = 1 ∧
    (Srv.get_latest_blocks c5Store (some 1)).total_count = 2 ∧
    (Srv.get_latest_blocks c5Store (some 1)).total_count ≠
      (Srv.get_latest_blocks c5Store (some 1)).blocks.length := by
  decide

/-- C5 (amended): the served latest-N listing returns blocks in
non-increasing height order and at most `min(N, 100)` items, but the
count it reports alongside them is the total number of blocks in the
store, not the count of items returned; the unrouted handlers.rs
variant reports the count of items returned but applies no cap to N. -/
theorem c5_latest_listing_behavior (st : Store) (limitParam : Option Nat) :
    List.Pairwise descS (Srv.get_latest_blocks st limitParam).blocks ∧
    (Srv.get_latest_blocks st limitParam).blocks.length ≤
      min (limitParam.getD 10) 100 ∧
    (Srv.get_latest_blocks st limitParam).total_count = query_block_count st ∧
    List.Pairwise descS (Handlers.get_latest_blocks st limitParam).blocks ∧
    (Handlers.get_latest_blocks st limitParam).total_count =
      (Handlers.get_latest_blocks st limitParam).blocks.length := by
  refine ⟨?_, ?_, rfl, ?_, rfl⟩
  · exact query_latest_blocks_sorted st _
  · exact query_latest_blocks_length_le st _
  · exact query_latest_blocks_sorted st _

/-- C6: for any store, page number and positive limit, the served
paginated listing returns at most `min(L, 100)` blocks, its reported
page size is `min(L, 100)`, its `total_pages` is the ceiling of the
total block count divided by that page size, and `has_next` holds
exactly when the current page is strictly below `total_pages`. -/
theorem c6_pagination_metadata (st : Store) (p L : Nat) (hL : 1 ≤ L) :
    (Srv.get_all_blocks st (some p) (some L)).blocks.length ≤ min L 100 ∧
    (Srv.get_all_blocks st (some p) (some L)).per_page = min L 100 ∧
    (Srv.get_all_blocks st (some p) (some L)).total_pages =
      (query_block_count st + min L 100 - 1) / min L 100 ∧
    ((Srv.get_all_blocks st (some p) (some L)).has_next = true ↔
      (Srv.get_all_blocks st (some p) (some L)).current_page <
        (Srv.get_all_blocks st (some p) (some L)).total_pages) := by
  have hmin : ¬ (min L 100 = 0) := by omega
  refine ⟨?_, rfl, ?_, ?_⟩
  · exact srv_query_all_blocks_length_le st _ _
  · simp only [Srv.get_all_blocks, totalPagesOf, Option.getD_some, hmin,
      if_false, ite_false]
  · simp only [Srv.get_all_blocks]
    exact decide_eq_true_iff

theorem c6_pagination_metadata_witness :
    (Srv.get_all_blocks c6Store (some 1) (some 1)).blocks.length ≤ min 1 100 ∧
    (Srv.get_all_blocks c6Store (some 1) (some 1)).per_page = min 1 100 ∧
    (Srv.get_all_blocks c6Store (some 1) (some 1)).total_pages =
      (query_block_count c6Store + min 1 100 - 1) / min 1 100 ∧
    ((Srv.get_all_blocks c6Store (some 1) (some 1)).has_next = true ↔
      (Srv.get_all_blocks c6Store (some 1) (some 1)).current_page <
        (Srv.get_all_blocks c6Store (some 1) (some 1)).total_pages) :=
  c6_pagination_metadata c6Store 1 1 (by decide)

/-- C7: the two listing operations of the served binary order in
opposite directions — the paginated all-blocks listing returns its page
in ascending height order while the latest-N listing returns its items
in descending height order. -/
theorem c7_opposite_listing_orders (st : Store) (pp lp : Option Nat) :
    List.Pairwise ascS (Srv.get_all_blocks st pp lp).blocks ∧
    List.Pairwise descS (Srv.get_latest_blocks st lp).blocks := by
  exact ⟨srv_query_all_blocks_sorted st _ _, query_latest_blocks_sorted st _⟩

/-- C8: the served get-transaction-by-id operation derives its size,
vsize and weight fields from the stored raw serialized byte length,
with weight equal to 4 times the byte length. -/
theorem c8_tx_size_weight (pe : ParseEnv) (st : Store) (txid : String)
    (row : TxRow) (hfind : findTxRow st txid = some row) :
    ∃ resp, Srv.query_tx pe st txid = some resp ∧
      resp.size = row.raw_data.length ∧ resp.vsize = row.raw_data.length ∧
      resp.weight = 4 * row.raw_data.length := by
  simp only [Srv.query_tx, hfind, Option.map_some']
  exact ⟨_, rfl, rfl, rfl, Nat.mul_comm _ 4⟩

theorem c8_tx_size_weight_witness :
    ∃ resp, Srv.query_tx pe0 c8Store "t8" = some resp ∧
      resp.size = c8Row.raw_data.length ∧ resp.vsize = c8Row.raw_data.length ∧
      resp.weight = 4 * c8Row.raw_data.length :=
  c8_tx_size_weight pe0 c8Store "t8" c8Row (by decide)

/-- C10: if the stored inputs or outputs text of a transaction fails to
parse, the get-transaction-by-id operation (both the served main.rs
variant and the db.rs variant) still returns the transaction, with the
unparseable list replaced by the empty list. -/
theorem c10_unparseable_defaults_empty (pe : ParseEnv) (st : Store)
    (txid : String) (row : TxRow) (hfind : findTxRow st txid = some row) :
    (∃ resp, Srv.query_tx pe st txid = some resp ∧
      (pe.pIn row.inputs = none → resp.inputs = []) ∧
      (pe.pOut row.outputs = none → resp.outputs = [])) ∧
    (∃ resp, Db.query_tx pe st txid = some resp ∧
      (pe.pIn row.inputs = none → resp.inputs = []) ∧
      (pe.pOut row.outputs = none → resp.outputs = [])) := by
  constructor
  · simp only [Srv.query_tx, hfind, Option.map_some']
    refine ⟨_, rfl, ?_, ?_⟩ <;> intro h <;> simp [h]
  · simp only [Db.query_tx, hfind, Option.map_some']
    refine ⟨_, rfl, ?_, ?_⟩ <;> intro h <;> simp [h]

theorem c10_unparseable_defaults_empty_witness :
    (∃ resp, Srv.query_tx pe0 c10Store "t10" = some resp ∧
      (pe0.pIn c10Row.inputs = none → resp.inputs = []) ∧
      (pe0.pOut c10Row.outputs = none → resp.outputs = [])) ∧
    (∃ resp, Db.query_tx pe0 c10Store "t10" = some resp ∧
      (pe0.pIn c10Row.inputs = none → resp.inputs = []) ∧
      (pe0.pOut c10Row.outputs = none → resp.outputs = [])) :=
  c10_unparseable_defaults_empty pe0 c10Store "t10" c10Row (by decide)

theorem processFile_log_spec (env : Env) :
    ∀ (outs : List (Option DecodedBlock)) (rs : RunState),
    ∃ e : List (String × Nat),
      (processFile env rs outs).log = rs.log ++ e ∧
      e.map Prod.snd = List.range' rs.height e.length ∧
      (processFile env rs outs).height = rs.height + e.length := by
  intro outs
  induction outs with
  | nil =>
    intro rs
    exact ⟨[], by simp [processFile], by simp [List.range'], by simp [processFile]⟩
  | cons o rest ih =>
    intro rs
    cases o with
    | none =>
      exact ⟨[], by simp [processFile], by simp [List.range'], by simp [processFile]⟩
    | some b =>
      rcases hins : insert_block env rs.store rs.wctr b rs.height with ⟨st1, w1, ok⟩
      cases ok with
      | true =>
        obtain ⟨e, h1, h2, h3⟩ := ih
          { store := st1, height := rs.height + 1, wctr := w1,
            log := rs.log ++ [(b.hash, rs.height)] }
        refine ⟨(b.hash, rs.height) :: e, ?_, ?_, ?_⟩
        · simp only [processFile, hins]
          rw [h1]
          simp
        · simp only [List.map_cons, List.length_cons, List.range'_succ,
            List.cons.injEq]
          exact ⟨trivial, h2⟩
        · simp only [processFile, hins]
          rw [h3]
          show rs.height + 1 + e.length =
            rs.height + ((b.hash, rs.height) :: e).length
          simp only [List.length_cons]
          omega
      | false =>
        obtain ⟨e, h1, h2, h3⟩ := ih
          { store := st1, height := rs.height, wctr := w1, log := rs.log }
        refine ⟨e, ?_, h2, ?_⟩
        · simp only [processFile, hins]
          exact h1
        · simp only [processFile, hins]
          exact h3

theorem indexFilesFrom_log_spec (env : Env) :
    ∀ (files : List BlkFile) (rs : RunState),
    ∃ e : List (String × Nat),
      (indexFilesFrom env rs files).log = rs.log ++ e ∧
      e.map Prod.snd = List.range' rs.height e.length ∧
      (indexFilesFrom env rs files).height = rs.height + e.length := by
  intro files
  induction files with
  | nil =>
    intro rs
    exact ⟨[], by simp [indexFilesFrom], by simp [List.range'],
      by simp [indexFilesFrom]⟩
  | cons f fs ih =>
    intro rs
    by_cases hf : isBlkFile f.name = true
    · obtain ⟨e1, p1, p2, p3⟩ := processFile_log_spec env f.payloads rs
      obtain ⟨e2, q1, q2, q3⟩ := ih (processFile env rs f.payloads)
      refine ⟨e1 ++ e2, ?_, ?_, ?_⟩
      · simp only [indexFilesFrom, hf, if_true]
        rw [q1, p1, List.append_assoc]
      · rw [List.map_append, List.length_append, p2, q2, p3]
        have h := List.range'_append rs.height e1.length e2.length 1
        simp only [Nat.one_mul, one_mul] at h
        rw [h, Nat.add_comm]
      · simp only [indexFilesFrom, hf, if_true]
        rw [q3, p3, List.length_append]
        omega
    · obtain ⟨e2, q1, q2, q3⟩ := ih rs
      refine ⟨e2, ?_, q2, ?_⟩
      · simp only [indexFilesFrom, hf, if_false]
        exact q1
      · simp only [indexFilesFrom, hf, if_false]
        exact q3

/-- C3: within one run, the height counter starts at 0 and the heights
assigned to the successfully stored blocks, in the order the blocks are
observed, are exactly 0, 1, 2, ... — one increment per success, hence
strictly increasing — and the final counter value equals the number of
successfully stored blocks. -/
theorem c3_height_counter_strictly_increasing (env : Env)
    (files : List BlkFile) (st : Store) :
    (index_blocks env files st).log.map Prod.snd =
      List.range (index_blocks env files st).log.length ∧
    (index_blocks env files st).height =
      (index_blocks env files st).log.length := by
  obtain ⟨e, h1, h2, h3⟩ :=
    indexFilesFrom_log_spec env files ⟨st, 0, 0, []⟩
  unfold index_blocks
  constructor
  · rw [h1]
    simp only [List.nil_append]
    rw [List.range_eq_range']
    exact h2
  · rw [h3, h1]
    simp

theorem keyCount_upsertBy (key : α → String) (l : List α) (x : α) (k : String) :
    keyCount key (upsertBy key l x) k =
      if k = key x then 1 else keyCount key l k := by
  unfold keyCount upsertBy
  rw [List.countP_append]
  induction l with
  | nil =>
    by_cases h : k = key x <;>
      simp [List.countP_cons, h, fun hne => (Ne.symm hne : ¬ key x = k)]
  | cons a l ih =>
    by_cases h1 : key a = key x <;> by_cases h2 : key a = k <;>
      by_cases h : k = key x <;>
      simp_all [List.filter_cons, List.countP_cons] <;> omega

theorem length_upsertBy_of_one (key : α → String) (l : List α) (x : α)
    (h : keyCount key l (key x) = 1) :
    (upsertBy key l x).length = l.length := by
  unfold upsertBy
  unfold keyCount at h
  rw [List.length_append]
  induction l with
  | nil => simp [List.countP_nil] at h
  | cons a l ih =>
    by_cases h1 : key a = key x <;>
      simp_all [List.filter_cons, List.countP_cons] <;> omega

theorem upsertsBy_cons (key : α → String) (l : List α) (x : α) (xs : List α) :
    upsertsBy key l (x :: xs) = upsertsBy key (upsertBy key l x) xs := rfl

theorem upsertsBy_append (key : α → String) (l : List α) (xs ys : List α) :
    upsertsBy key l (xs ++ ys) = upsertsBy key (upsertsBy key l xs) ys := by
  simp [upsertsBy, List.foldl_append]

theorem keyCount_upsertsBy (key : α → String) :
    ∀ (xs l : List α) (k : String),
      keyCount key (upsertsBy key l xs) k =
        if k ∈ xs.map key then 1 else keyCount key l k := by
  intro xs
  induction xs with
  | nil => intro l k; simp [upsertsBy]
  | cons x rest ih =>
    intro l k
    rw [upsertsBy_cons, ih, keyCount_upsertBy]
    by_cases h1 : k ∈ rest.map key
    · simp [h1]
    · by_cases h2 : k = key x <;> simp [h1, h2]

theorem length_upsertsBy_of_present (key : α → String) :
    ∀ (xs l : List α), (∀ x ∈ xs, keyCount key l (key x) = 1) →
      (upsertsBy key l xs).length = l.length := by
  intro xs
  induction xs with
  | nil => intro l _; rfl
  | cons x rest ih =>
    intro l h
    have hx := h x (List.mem_cons_self x rest)
    have hrest : ∀ y ∈ rest, keyCount key (upsertBy key l x) (key y) = 1 := by
      intro y hy
      rw [keyCount_upsertBy]
      by_cases hk : key y = key x
      · simp [hk]
      · simpa [hk] using h y (List.mem_cons_of_mem _ hy)
    rw [upsertsBy_cons, ih _ hrest, length_upsertBy_of_one key l x hx]

theorem insertTxList_okEnv (ei : List TxInSimplified → String)
    (eo : List TxOutSimplified → String) :
    ∀ (txs : List DecodedTx) (st : Store) (w : Nat) (bh : String),
      insertTxList (okEnv ei eo) st w txs bh =
        (txs.foldl (fun s t => s.putTx (txRowOf (okEnv ei eo) t bh)) st,
          w + txs.length, true) := by
  intro txs
  induction txs with
  | nil => intro st w bh; simp [insertTxList]
  | cons t rest ih =>
    intro st w bh
    have hw : (okEnv ei eo).writeOk w = true := rfl
    simp only [insertTxList, insert_tx, hw, if_true]
    rw [ih]
    simp only [List.foldl_cons, List.length_cons, Prod.mk.injEq, true_and,
      and_true] <;> omega

theorem foldl_putTx_blocks (g : DecodedTx → TxRow) :
    ∀ (txs : List DecodedTx) (st : Store),
      (txs.foldl (fun s t => s.putTx (g t)) st).blocks = st.blocks := by
  intro txs
  induction txs with
  | nil => intro st; rfl
  | cons t rest ih =>
    intro st
    simp only [List.foldl_cons]
    rw [ih]
    rfl

theorem foldl_putTx_transactions (g : DecodedTx → TxRow) :
    ∀ (txs : List DecodedTx) (st : Store),
      (txs.foldl (fun s t => s.putTx (g t)) st).transactions =
        upsertsBy TxRow.txid st.transactions (txs.map g) := by
  intro txs
  induction txs with
  | nil => intro st; rfl
  | cons t rest ih =>
    intro st
    simp only [List.foldl_cons, List.map_cons]
    rw [ih, upsertsBy_cons]
    rfl

theorem processFile_okEnv (ei : List TxInSimplified → String)
    (eo : List TxOutSimplified → String) :
    ∀ (outs : List (Option DecodedBlock)) (rs : RunState),
      (processFile (okEnv ei eo) rs outs).store.blocks =
        upsertsBy BlockRow.hash rs.store.blocks
          (storedBlocksOf rs.height outs) ∧
      (processFile (okEnv ei eo) rs outs).store.transactions =
        upsertsBy TxRow.txid rs.store.transactions
          (storedTxsOf (okEnv ei eo) outs) ∧
      (processFile (okEnv ei eo) rs outs).height =
        rs.height + successCount outs := by
  intro outs
  induction outs with
  | nil => intro rs; exact ⟨rfl, rfl, rfl⟩
  | cons o rest ih =>
    intro rs
    cases o with
    | none => exact ⟨rfl, rfl, rfl⟩
    | some b =>
      have hins : insert_block (okEnv ei eo) rs.store rs.wctr b rs.height =
          (b.txdata.foldl
              (fun s t => s.putTx (txRowOf (okEnv ei eo) t b.hash))
              (rs.store.putBlock (blockRowOf b rs.height)),
            rs.wctr + 1 + b.txdata.length, true) := by
        have hw : (okEnv ei eo).writeOk rs.wctr = true := rfl
        simp only [insert_block, hw, if_true]
        exact insertTxList_okEnv ei eo b.txdata _ _ b.hash
      obtain ⟨h1, h2, h3⟩ := ih
        { store := b.txdata.foldl
            (fun s t => s.putTx (txRowOf (okEnv ei eo) t b.hash))
            (rs.store.putBlock (blockRowOf b rs.height)),
          height := rs.height + 1, wctr := rs.wctr + 1 + b.txdata.length,
          log := rs.log ++ [(b.hash, rs.height)] }
      refine ⟨?_, ?_, ?_⟩
      · simp only [processFile, hins]
        rw [h1]
        simp only [storedBlocksOf, upsertsBy_cons]
        rw [foldl_putTx_blocks]
        rfl
      · simp only [processFile, hins]
        rw [h2]
        simp only [storedTxsOf, upsertsBy_append]
        rw [foldl_putTx_transactions]
        rfl
      · simp only [processFile, hins]
        rw [h3]
        show rs.height + 1 + successCount rest =
          rs.height + successCount (some b :: rest)
        simp only [successCount]
        omega

theorem indexFilesFrom_okEnv (ei : List TxInSimplified → String)
    (eo : List TxOutSimplified → String) :
    ∀ (files : List BlkFile) (rs : RunState),
      (indexFilesFrom (okEnv ei eo) rs files).store.blocks =
        upsertsBy BlockRow.hash rs.store.blocks
          (storedBlocksFiles rs.height files) ∧
      (indexFilesFrom (okEnv ei eo) rs files).store.transactions =
        upsertsBy TxRow.txid rs.store.transactions
          (storedTxsFiles (okEnv ei eo) files) ∧
      (indexFilesFrom (okEnv ei eo) rs files).height =
        rs.height + heightGainFiles files := by
  intro files
  induction files with
  | nil => intro rs; exact ⟨rfl, rfl, rfl⟩
  | cons f fs ih =>
    intro rs
    cases hf : isBlkFile f.name with
    | true =>
      have eidx : indexFilesFrom (okEnv ei eo) rs (f :: fs) =
          indexFilesFrom (okEnv ei eo)
            (processFile (okEnv ei eo) rs f.payloads) fs := by
        simp [indexFilesFrom, hf]
      have eb : storedBlocksFiles rs.height (f :: fs) =
          storedBlocksOf rs.height f.payloads ++
            storedBlocksFiles (rs.height + successCount f.payloads) fs := by
        simp [storedBlocksFiles, hf]
      have et : storedTxsFiles (okEnv ei eo) (f :: fs) =
          storedTxsOf (okEnv ei eo) f.payloads ++
            storedTxsFiles (okEnv ei eo) fs := by
        simp [storedTxsFiles, hf]
      have eh : heightGainFiles (f :: fs) =
          successCount f.payloads + heightGainFiles fs := by
        simp [heightGainFiles, hf]
      obtain ⟨p1, p2, p3⟩ := processFile_okEnv ei eo f.payloads rs
      obtain ⟨q1, q2, q3⟩ := ih (processFile (okEnv ei eo) rs f.payloads)
      refine ⟨?_, ?_, ?_⟩
      · rw [eidx, q1, p1, p3, eb, upsertsBy_append]
      · rw [eidx, q2, p2, et, upsertsBy_append]
      · rw [eidx, q3, p3, eh]
        omega
    | false =>
      have eidx : indexFilesFrom (okEnv ei eo) rs (f :: fs) =
          indexFilesFrom (okEnv ei eo) rs fs := by
        simp [indexFilesFrom, hf]
      have eb : storedBlocksFiles rs.height (f :: fs) =
          storedBlocksFiles rs.height fs := by
        simp [storedBlocksFiles, hf]
      have et : storedTxsFiles (okEnv ei eo) (f :: fs) =
          storedTxsFiles (okEnv ei eo) fs := by
        simp [storedTxsFiles, hf]
      have eh : heightGainFiles (f :: fs) = heightGainFiles fs := by
        simp [heightGainFiles, hf]
      obtain ⟨q1, q2, q3⟩ := ih rs
      exact ⟨by rw [eidx, q1, eb], by rw [eidx, q2, et], by rw [eidx, q3, eh]⟩

/-- C4: re-ingesting the same files (same order, heights restarting
from 0, all writes succeeding) over the store produced by a first
ingestion leaves the total block count and the total transaction count
unchanged: insert-or-replace by identity hash never duplicates a block
or transaction record. -/
theorem c4_reingest_preserves_counts (ei : List TxInSimplified → String)
    (eo : List TxOutSimplified → String) (files : List BlkFile)
    (st0 : Store) :
    ((index_blocks (okEnv ei eo) files
        ((index_blocks (okEnv ei eo) files st0).store)).store).blocks.length =
      ((index_blocks (okEnv ei eo) files st0).store).blocks.length ∧
    ((index_blocks (okEnv ei eo) files
        ((index_blocks (okEnv ei eo) files st0).store)).store).transactions.length =
      ((index_blocks (okEnv ei eo) files st0).store).transactions.length := by
  obtain ⟨b1, t1, _⟩ := indexFilesFrom_okEnv ei eo files ⟨st0, 0, 0, []⟩
  obtain ⟨b2, t2, _⟩ :=
    indexFilesFrom_okEnv ei eo files
      ⟨(index_blocks (okEnv ei eo) files st0).store, 0, 0, []⟩
  have e1 : (index_blocks (okEnv ei eo) files st0).store.blocks =
      upsertsBy BlockRow.hash st0.blocks (storedBlocksFiles 0 files) := b1
  have f1 : (index_blocks (okEnv ei eo) files st0).store.transactions =
      upsertsBy TxRow.txid st0.transactions
        (storedTxsFiles (okEnv ei eo) files) := t1
  have e2 : (index_blocks (okEnv ei eo) files
        ((index_blocks (okEnv ei eo) files st0).store)).store.blocks =
      upsertsBy BlockRow.hash
        ((index_blocks (okEnv ei eo) files st0).store).blocks
        (storedBlocksFiles 0 files) := b2
  have f2 : (index_blocks (okEnv ei eo) files
        ((index_blocks (okEnv ei eo) files st0).store)).store.transactions =
      upsertsBy TxRow.txid
        ((index_blocks (okEnv ei eo) files st0).store).transactions
        (storedTxsFiles (okEnv ei eo) files) := t2
  constructor
  · rw [e2]
    apply length_upsertsBy_of_present
    intro x hx
    rw [e1, keyCount_upsertsBy]
    have hmem := List.mem_map_of_mem BlockRow.hash hx
    rw [if_pos hmem]
  · rw [f2]
    apply length_upsertsBy_of_present
    intro x hx
    rw [f1, keyCount_upsertsBy]
    have hmem := List.mem_map_of_mem TxRow.txid hx
    rw [if_pos hmem]

theorem txRefOk_mono (bs : List BlockRow) (r : BlockRow) (t : TxRow)
    (h : txRefOk bs t = true) :
    txRefOk (upsertBy BlockRow.hash bs r) t = true := by
  unfold txRefOk at h ⊢
  cases hb : t.block_hash with
  | none => rfl
  | some bh =>
    rw [hb] at h
    simp only [List.any_eq_true, decide_eq_true_eq] at h ⊢
    obtain ⟨b, hbmem, hbh⟩ := h
    by_cases he : b.hash = r.hash
    · refine ⟨r, ?_, ?_⟩
      · unfold upsertBy; simp
      · rw [← he]; exact hbh
    · refine ⟨b, ?_, hbh⟩
      unfold upsertBy
      simp [List.mem_filter, hbmem, he]

theorem blockHash_present (bs : List BlockRow) (r : BlockRow) :
    (upsertBy BlockRow.hash bs r).any (fun b => b.hash = r.hash) = true := by
  unfold upsertBy
  simp

theorem storeInv_putTx (st : Store) (r : TxRow) (hinv : storeInv st)
    (hr : txRefOk st.blocks r = true) : storeInv (st.putTx r) := by
  intro t ht
  have hb : (st.putTx r).blocks = st.blocks := rfl
  rw [hb]
  simp only [Store.putTx, upsertBy] at ht
  rcases List.mem_append.mp ht with h | h
  · exact hinv t (List.mem_of_mem_filter h)
  · rw [List.mem_singleton.mp h]
    exact hr

theorem storeInv_insertTxList (env : Env) :
    ∀ (txs : List DecodedTx) (st : Store) (w : Nat) (bh : String),
      storeInv st → st.blocks.any (fun b => b.hash = bh) = true →
      storeInv (insertTxList env st w txs bh).1 := by
  intro txs
  induction txs with
  | nil => intro st w bh hinv _; exact hinv
  | cons t rest ih =>
    intro st w bh hinv hbh
    cases hw : env.writeOk w with
    | true =>
      have hstep : insertTxList env st w (t :: rest) bh =
          insertTxList env (st.putTx (txRowOf env t bh)) (w + 1) rest bh := by
        simp [insertTxList, insert_tx, hw]
      rw [hstep]
      refine ih _ (w + 1) bh ?_ ?_
      · refine storeInv_putTx st _ hinv ?_
        exact hbh
      · exact hbh
    | false =>
      have hstep : insertTxList env st w (t :: rest) bh = (st, w + 1, false) := by
        simp [insertTxList, insert_tx, hw]
      rw [hstep]
      exact hinv

theorem storeInv_insert_block (env : Env) (st : Store) (w : Nat)
    (b : DecodedBlock) (h : Nat) (hinv : storeInv st) :
    storeInv (insert_block env st w b h).1 := by
  cases hw : env.writeOk w with
  | true =>
    have hstep : insert_block env st w b h =
        insertTxList env (st.putBlock (blockRowOf b h)) (w + 1) b.txdata
          b.hash := by
      simp [insert_block, hw]
    rw [hstep]
    refine storeInv_insertTxList env b.txdata _ (w + 1) b.hash ?_ ?_
    · intro t ht
      exact txRefOk_mono st.blocks (blockRowOf b h) t (hinv t ht)
    · exact blockHash_present st.blocks (blockRowOf b h)
  | false =>
    have hstep : insert_block env st w b h = (st, w + 1, false) := by
      simp [insert_block, hw]
    rw [hstep]
    exact hinv

theorem storeInv_processFile (env : Env) :
    ∀ (outs : List (Option DecodedBlock)) (rs : RunState),
      storeInv rs.store → storeInv (processFile env rs outs).store := by
  intro outs
  induction outs with
  | nil => intro rs h; exact h
  | cons o rest ih =>
    intro rs h
    cases o with
    | none => exact h
    | some b =>
      rcases hins : insert_block env rs.store rs.wctr b rs.height with
        ⟨st1, w1, ok⟩
      have h1 : storeInv st1 := by
        have hall := storeInv_insert_block env rs.store rs.wctr b rs.height h
        rw [hins] at hall
        exact hall
      cases ok with
      | true =>
        simp only [processFile, hins]
        exact ih _ h1
      | false =>
        simp only [processFile, hins]
        exact ih _ h1

theorem storeInv_indexFilesFrom (env : Env) :
    ∀ (files : List BlkFile) (rs : RunState),
      storeInv rs.store → storeInv (indexFilesFrom env rs files).store := by
  intro files
  induction files with
  | nil => intro rs h; exact h
  | cons f fs ih =>
    intro rs h
    cases hf : isBlkFile f.name with
    | true =>
      have hstep : indexFilesFrom env rs (f :: fs) =
          indexFilesFrom env (processFile env rs f.payloads) fs := by
        simp [indexFilesFrom, hf]
      rw [hstep]
      exact ih _ (storeInv_processFile env f.payloads rs h)
    | false =>
      have hstep : indexFilesFrom env rs (f :: fs) = indexFilesFrom env rs fs := by
        simp [indexFilesFrom, hf]
      rw [hstep]
      exact ih rs h

/-- C9: referential integrity — if every transaction row's owning-block
foreign key references an existing block row, this still holds after
any ingestion run, under any failure pattern: the write path inserts
the block row before any of that block's transaction rows, and a
transaction row is only written once its owning block row is present. -/
theorem c9_fk_integrity (env : Env) (files : List BlkFile) (st : Store)
    (hinv : storeInv st) :
    storeInv (index_blocks env files st).store :=
  storeInv_indexFilesFrom env files ⟨st, 0, 0, []⟩ hinv

theorem c9_fk_integrity_witness :
    storeInv (index_blocks okEnv0 [c9File] emptyStore).store :=
  c9_fk_integrity okEnv0 [c9File] emptyStore
    (fun t ht => absurd ht (List.not_mem_nil t))
